import Mathlib

/-!
Shallow embedding of the tool-call-parser end-to-end test harness
(Scripts/tests/test-tool-call-parsers.py) and proofs about it.

The embedding covers:
  * the Python truthiness conventions the script relies on,
  * a model of the standard json.loads used by evaluate_response,
  * evaluate_response itself,
  * the SSE stream reduction inside send_request (streaming branch),
  * the wait_for_server polling loop, modelled over observation traces,
  * the run_parser_tests / regression / main orchestration, with the
    process and filesystem effects supplied as oracle inputs.

Python dictionaries read through dict.get are modelled with Option:
an absent key is none. Where the script distinguishes a key that is
present with value None from an absent key (message content and
tool_calls), the field is Option (Option _): the outer layer is key
presence, the inner layer is null versus a value.
-/

namespace ToolCallHarness

/-- Truthiness of an optional string, as Python evaluates
`if d.get(k):` - false when the key is absent or the value is the
empty string. -/
def truthyS (o : Option String) : Bool :=
  match o with
  | some s => !s.isEmpty
  | none => false

/-- Concatenation of a list of strings, as Python str.join with an
empty separator. -/
def joinAll : List String → String
  | [] => ""
  | s :: l => s ++ joinAll l

/-- Last element of a list, with a default for the empty list. -/
def lastD {α : Type} : List α → α → α
  | [], d => d
  | x :: l, _ => lastD l x

/-- Single-quote character, used to build the exact Python f-string
messages of evaluate_response. -/
def sq : String := String.singleton (Char.ofNat 39)

/-- Python prefix slice s[:n], taken over code points. -/
def pySlice (s : String) (n : Nat) : String := String.mk (s.data.take n)

-- ── String append helper lemmas ───────────────────────────────────

theorem strAppendNil (s : String) : s ++ "" = s := by
  cases s with
  | mk d => show String.mk (d ++ []) = String.mk d; simp

theorem strNilAppend (s : String) : "" ++ s = s := by
  cases s with
  | mk d => rfl

theorem strAppendAssoc (a b c : String) : a ++ b ++ c = a ++ (b ++ c) := by
  cases a with
  | mk x => cases b with
    | mk y => cases c with
      | mk z => show String.mk (x ++ y ++ z) = String.mk (x ++ (y ++ z)); simp

theorem lastD_cons {α : Type} (x : α) (l : List α) (d : α) :
    lastD (x :: l) d = lastD l x := rfl

theorem lastD_append {α : Type} (l₁ l₂ : List α) (d : α) :
    lastD (l₁ ++ l₂) d = lastD l₂ (lastD l₁ d) := by
  induction l₁ generalizing d with
  | nil => rfl
  | cons x l ih => simp [lastD, ih]

-- ── JSON values and a model of json.loads ─────────────────────────

/-- JSON values as produced by json.loads. Numbers keep their source
lexeme together with a flag telling whether Python would decode them
as float (fractional part or exponent present) or int. -/
inductive JValue : Type where
  | null : JValue
  | bool : Bool → JValue
  | num : Bool → String → JValue
  | str : String → JValue
  | arr : List JValue → JValue
  | obj : List (String × JValue) → JValue

/-- Python type name of a decoded JSON value, as type(x).__name__. -/
def pyTypeName : JValue → String
  | .null => "NoneType"
  | .bool _ => "bool"
  | .num isFloat _ => if isFloat then "float" else "int"
  | .str _ => "str"
  | .arr _ => "list"
  | .obj _ => "dict"

/-- Whether a decoded JSON value is a Python dict. -/
def pyIsDict : JValue → Bool
  | .obj _ => true
  | _ => false

/-- Membership test on the fields of a decoded JSON object, as the
Python expression `k in args`. -/
def hasKey (kvs : List (String × JValue)) (k : String) : Bool :=
  kvs.any (fun p => p.1 == k)

/-- JSON whitespace predicate. -/
def isJsonWs (c : Char) : Bool :=
  c = ' ' || c = '\t' || c = '\n' || c = '\r'

/-- Skips leading JSON whitespace. -/
def skipWs : List Char → List Char
  | [] => []
  | c :: cs => if isJsonWs c then skipWs cs else c :: cs

/-- Hexadecimal digit value. -/
def hexVal (c : Char) : Option Nat :=
  if '0' ≤ c ∧ c ≤ '9' then some (c.toNat - 48)
  else if 'a' ≤ c ∧ c ≤ 'f' then some (c.toNat - 87)
  else if 'A' ≤ c ∧ c ≤ 'F' then some (c.toNat - 55)
  else none

/-- Tail-recursive worker of the JSON string body scanner, carrying
the decoded characters in reverse. -/
def parseStrCharsAux : List Char → List Char →
    Except String (List Char × List Char)
  | _, [] => .error "Unterminated string"
  | acc, '"' :: cs => .ok (acc.reverse, cs)
  | acc, '\\' :: '"' :: cs => parseStrCharsAux ('"' :: acc) cs
  | acc, '\\' :: '\\' :: cs => parseStrCharsAux ('\\' :: acc) cs
  | acc, '\\' :: '/' :: cs => parseStrCharsAux ('/' :: acc) cs
  | acc, '\\' :: 'b' :: cs => parseStrCharsAux (Char.ofNat 8 :: acc) cs
  | acc, '\\' :: 'f' :: cs => parseStrCharsAux (Char.ofNat 12 :: acc) cs
  | acc, '\\' :: 'n' :: cs => parseStrCharsAux (Char.ofNat 10 :: acc) cs
  | acc, '\\' :: 'r' :: cs => parseStrCharsAux (Char.ofNat 13 :: acc) cs
  | acc, '\\' :: 't' :: cs => parseStrCharsAux (Char.ofNat 9 :: acc) cs
  | acc, '\\' :: 'u' :: h1 :: h2 :: h3 :: h4 :: cs =>
    match hexVal h1, hexVal h2, hexVal h3, hexVal h4 with
    | some a, some b, some c, some d =>
      parseStrCharsAux (Char.ofNat (((a * 16 + b) * 16 + c) * 16 + d) :: acc) cs
    | _, _, _, _ => .error "Invalid unicode escape"
  | _, '\\' :: _ => .error "Invalid escape"
  | acc, c :: cs =>
    if c.toNat < 32 then .error "Invalid control character"
    else parseStrCharsAux (c :: acc) cs

/-- Parses the body of a JSON string after the opening quote; returns
the decoded characters and the remaining input. Control characters
are rejected, escape sequences are decoded, as in the strict json
module decoder. -/
def parseStrChars (cs : List Char) : Except String (List Char × List Char) :=
  parseStrCharsAux [] cs

/-- Takes a maximal run of decimal digits. -/
def takeDigits : List Char → List Char × List Char
  | [] => ([], [])
  | c :: cs =>
    if c.isDigit then
      let r := takeDigits cs
      (c :: r.1, r.2)
    else ([], c :: cs)

/-- Parses a JSON number: optional minus, an integer part without
leading zeros, an optional fraction and an optional exponent; the
result records whether the lexeme is a Python float. -/
def parseNumber (cs : List Char) : Except String (JValue × List Char) :=
  let signed := match cs with
    | '-' :: rest => ([('-' : Char)], rest)
    | _ => ([], cs)
  match takeDigits signed.2 with
  | ([], _) => .error "Expecting value"
  | (d :: ds, rest1) =>
    if d = '0' ∧ ds ≠ [] then .error "Expecting value"
    else
      let intPart := signed.1 ++ (d :: ds)
      let frac := match rest1 with
        | '.' :: r =>
          match takeDigits r with
          | ([], _) => none
          | (fs, r2) => some (('.' : Char) :: fs, r2)
        | _ => some ([], rest1)
      match frac with
      | none => .error "Expecting fraction digits"
      | some (fracPart, rest2) =>
        let expo := match rest2 with
          | 'e' :: r => some (('e' : Char), r)
          | 'E' :: r => some (('E' : Char), r)
          | _ => none
        match expo with
        | none =>
          .ok (.num (!fracPart.isEmpty) (String.mk (intPart ++ fracPart)), rest2)
        | some (ec, r) =>
          let esign := match r with
            | '+' :: r2 => ([('+' : Char)], r2)
            | '-' :: r2 => ([('-' : Char)], r2)
            | _ => ([], r)
          match takeDigits esign.2 with
          | ([], _) => .error "Expecting exponent digits"
          | (es, rest3) =>
            .ok (.num true
              (String.mk (intPart ++ fracPart ++ ec :: esign.1 ++ es)), rest3)

mutual

/-- Recursive descent JSON value grammar over a fuel bound; mirrors
the strict decoder behind json.loads. -/
def parseValue : Nat → List Char → Except String (JValue × List Char)
  | 0, _ => .error "Input too deeply nested"
  | fuel + 1, cs =>
    match skipWs cs with
    | 'n' :: 'u' :: 'l' :: 'l' :: rest => .ok (.null, rest)
    | 't' :: 'r' :: 'u' :: 'e' :: rest => .ok (.bool true, rest)
    | 'f' :: 'a' :: 'l' :: 's' :: 'e' :: rest => .ok (.bool false, rest)
    | '"' :: rest => (parseStrChars rest).map (fun r => (.str (String.mk r.1), r.2))
    | '[' :: rest =>
      (match skipWs rest with
       | ']' :: r2 => .ok (.arr [], r2)
       | _ => (parseArrayItems fuel rest).map (fun r => (.arr r.1, r.2)))
    | '{' :: rest =>
      (match skipWs rest with
       | '}' :: r2 => .ok (.obj [], r2)
       | _ => (parseObjMembers fuel rest).map (fun r => (.obj r.1, r.2)))
    | rest => parseNumber rest

/-- Parses the comma-separated items of a non-empty JSON array up to
the closing bracket. -/
def parseArrayItems : Nat → List Char → Except String (List JValue × List Char)
  | 0, _ => .error "Input too deeply nested"
  | fuel + 1, cs => do
    let (v, r1) ← parseValue fuel cs
    match skipWs r1 with
    | ',' :: r2 => (parseArrayItems fuel r2).map (fun r => (v :: r.1, r.2))
    | ']' :: r2 => .ok ([v], r2)
    | _ => .error "Expecting comma or closing bracket"

/-- Parses the comma-separated members of a non-empty JSON object up
to the closing brace. -/
def parseObjMembers : Nat → List Char →
    Except String (List (String × JValue) × List Char)
  | 0, _ => .error "Input too deeply nested"
  | fuel + 1, cs =>
    match skipWs cs with
    | '"' :: r1 => do
      let (kcs, r2) ← parseStrChars r1
      match skipWs r2 with
      | ':' :: r3 => do
        let (v, r4) ← parseValue fuel r3
        match skipWs r4 with
        | ',' :: r5 =>
          (parseObjMembers fuel r5).map
            (fun r => ((String.mk kcs, v) :: r.1, r.2))
        | '}' :: r5 => .ok ([(String.mk kcs, v)], r5)
        | _ => .error "Expecting comma or closing brace"
      | _ => .error "Expecting colon"
    | _ => .error "Expecting property name"

end

/-- Model of json.loads: parses one value and requires only trailing
whitespace after it. -/
def json_loads (s : String) : Except String JValue :=
  match parseValue (4 * s.length + 8) s.data with
  | .ok (v, rest) =>
    if (skipWs rest).isEmpty then .ok v else .error "Extra data"
  | .error e => .error e

-- ── Response data model (as consumed by evaluate_response) ────────

/-- Inner function object of a tool call: tc["function"] with keys
name and arguments read through dict.get with default "". -/
structure FunctionCall where
  name : Option String := none
  arguments : Option String := none

/-- One finalized tool call record. -/
structure ToolCall where
  id : Option String := none
  type : Option String := none
  function : Option FunctionCall := none

/-- Message of a choice. The content and tool_calls fields use a
nested Option: the outer layer is key presence in the dict, the
inner layer is null versus an actual value, because the script reads
them as `msg.get(k) or default` which conflates all three shapes. -/
structure Message where
  content : Option (Option String) := none
  tool_calls : Option (Option (List ToolCall)) := none

/-- One choice of a chat-completion response. finish_reason uses the
nested Option because the script reads it as
`choice.get("finish_reason", "")`: an absent key gives the empty
string while a key present with null gives None. -/
structure Choice where
  message : Option Message := none
  finish_reason : Option (Option String) := none

/-- Diagnostic detail mapping built by evaluate_response. Each field
models one dict key; none means the key is absent from the returned
dict. The elapsed_s timing entry of the source is a wall-clock
measurement and is not modelled. -/
structure Details where
  error : Option String := none
  finish_reason : Option (Option String) := none
  content_snippet : Option String := none
  tool_calls : Option (List ToolCall) := none
  arguments_raw : Option String := none
  arguments : Option (List (String × JValue)) := none
  tool_name : Option String := none
  num_tool_calls : Option Nat := none

/-- Evaluates choice.get("finish_reason", ""): the default fires only
when the key is absent; a stored null passes through as None. -/
def finishGet : Option (Option String) → Option String
  | none => some ""
  | some v => v

/-- Branch of evaluate_response for a test case that expects the tool
named exp to be called (expected_tool is truthy in the source). -/
def evalExpected (tool_calls : List ToolCall) (content : String)
    (finish : Option String) (exp : String) : Bool × Details :=
  match tool_calls with
  | [] =>
    (false, { error := some "Expected tool_calls but got none",
              finish_reason := some finish,
              content_snippet := some (pySlice content 200) })
  | tc :: _ =>
    let func := tc.function.getD {}
    let name := func.name.getD ""
    let args_str := func.arguments.getD ""
    if name ≠ exp then
      (false, { error := some ("Expected tool " ++ sq ++ exp ++ sq ++
                  " but got " ++ sq ++ name ++ sq),
                tool_calls := some tool_calls })
    else
      match json_loads args_str with
      | .error e =>
        (false, { error := some ("Invalid JSON arguments: " ++ e),
                  arguments_raw := some (pySlice args_str 500) })
      | .ok (.obj args) =>
        if exp = "get_weather" ∧ ¬(hasKey args "city" = true) then
          (false, { error := some ("Missing " ++ sq ++ "city" ++ sq ++
                      " key in arguments"),
                    arguments := some args })
        else if exp = "calculate" ∧ ¬(hasKey args "expression" = true) then
          (false, { error := some ("Missing " ++ sq ++ "expression" ++ sq ++
                      " key in arguments"),
                    arguments := some args })
        else
          (true, { tool_name := some name,
                   arguments := some args,
                   finish_reason := some finish,
                   num_tool_calls := some tool_calls.length })
      | .ok v =>
        (false, { error := some ("Arguments not a dict: " ++ pyTypeName v),
                  arguments_raw := some args_str })

/-- Branch of evaluate_response for a test case that expects a plain
text answer and no tool call. -/
def evalNoTool (tool_calls : List ToolCall) (content : String)
    (finish : Option String) : Bool × Details :=
  match tool_calls with
  | [] =>
    (true, { content_snippet := some (pySlice content 200),
             finish_reason := some finish })
  | _ :: _ =>
    (false, { error := some "Got unexpected tool_calls",
              tool_calls := some tool_calls })

/-- Model of evaluate_response(result, expected_tool): classifies the
choices of a normalized response against the expectation, returning
the (passed, details) pair of the source. -/
def evaluate_response (choices : List Choice) (expected_tool : Option String) :
    Bool × Details :=
  match choices with
  | [] => (false, { error := some "No choices in response" })
  | choice :: _ =>
    let msg := choice.message.getD {}
    let finish := finishGet choice.finish_reason
    let tool_calls := (msg.tool_calls.join).getD []
    let content := (msg.content.join).getD ""
    if truthyS expected_tool then
      evalExpected tool_calls content finish (expected_tool.getD "")
    else
      evalNoTool tool_calls content finish

-- ── SSE stream reduction (send_request, streaming branch) ─────────

/-- One entry of delta["tool_calls"]: tc["index"] is always read
directly (the server guarantees it), id comes from tc.get("id"),
fname and fargs come from tc.get("function", dict()).get("name") and
...get("arguments"); a missing function object behaves exactly like
one with both keys missing, so both are modelled by none. -/
structure StreamToolCallDelta where
  index : Nat
  id : Option String := none
  fname : Option String := none
  fargs : Option String := none

/-- Accumulated per-index state of one tool call during stream
reduction: the dict stored in tool_calls[idx] in the source. -/
structure Fragment where
  id : String
  name : String
  arguments : String
deriving DecidableEq

/-- Delta object of one SSE chunk. -/
structure StreamDelta where
  tool_calls : Option (List StreamToolCallDelta) := none
  content : Option String := none

/-- One parsed SSE data chunk: chunk["choices"][0].get("delta") plus
the chunk-level finish_reason. Usage counters are not modelled; no
claim concerns them. -/
structure StreamChunk where
  delta : StreamDelta := {}
  finish_reason : Option String := none

/-- Running state of the stream reduction: the index-keyed fragment
dict (as an association list in insertion order, keys unique), the
ordered content parts, and the latest truthy finish reason. -/
structure StreamState where
  tool_calls : List (Nat × Fragment) := []
  content_parts : List String := []
  finish_reason : Option String := none

/-- Lookup of tool_calls[idx], as Python dict access keyed by the
stream-local index (keys are unique, so first match is the entry). -/
def lookupFrag : List (Nat × Fragment) → Nat → Option Fragment
  | [], _ => none
  | p :: rest, i => if p.1 = i then some p.2 else lookupFrag rest i

/-- In-place update of the entry stored at one index. -/
def updateFrag (tcs : List (Nat × Fragment)) (i : Nat)
    (g : Fragment → Fragment) : List (Nat × Fragment) :=
  tcs.map (fun p => if p.1 = i then (p.1, g p.2) else p)

/-- Arguments text a single delta entry contributes: the fragment is
appended only when tc.get("function", dict()).get("arguments") is
truthy. -/
def argOf (tc : StreamToolCallDelta) : String :=
  if truthyS tc.fargs then tc.fargs.getD "" else ""

/-- Combined effect of the three conditional mutations the source
performs on the stored fragment for one delta entry: a truthy id or
name overwrites, truthy arguments text is appended. The three fields
are updated independently, so folding them into one record update is
behaviour-preserving. -/
def entryStep (f : Fragment) (tc : StreamToolCallDelta) : Fragment :=
  { id := if truthyS tc.id then tc.id.getD "" else f.id,
    name := if truthyS tc.fname then tc.fname.getD "" else f.name,
    arguments := f.arguments ++ argOf tc }

/-- Fresh fragment seeded when an index is first seen:
dict(id=tc.get("id", ""), name="", arguments=""). -/
def seedFrag (tc : StreamToolCallDelta) : Fragment :=
  { id := tc.id.getD "", name := "", arguments := "" }

/-- Processes one entry of delta["tool_calls"]: seeds the fragment if
the index is new, then applies the conditional id/name/arguments
mutations. -/
def applyToolCallDelta (tcs : List (Nat × Fragment))
    (tc : StreamToolCallDelta) : List (Nat × Fragment) :=
  let tcs1 := if (lookupFrag tcs tc.index).isSome then tcs
              else tcs ++ [(tc.index, seedFrag tc)]
  updateFrag tcs1 tc.index (fun f => entryStep f tc)

/-- Finish-reason step of one chunk: a truthy chunk-level
finish_reason overwrites the stored one. -/
def chunkFinishStep (st : StreamState) (fr : Option String) : StreamState :=
  match fr with
  | some s => if s.isEmpty then st else { st with finish_reason := some s }
  | none => st

/-- Tool-call step of one chunk: when delta["tool_calls"] is truthy,
every entry is folded into the fragment dict in list order. -/
def chunkToolStep (st : StreamState)
    (otc : Option (List StreamToolCallDelta)) : StreamState :=
  match otc with
  | some l =>
    if l.isEmpty then st
    else { st with tool_calls := l.foldl applyToolCallDelta st.tool_calls }
  | none => st

/-- Content step of one chunk: truthy content is appended to the
ordered content parts. -/
def chunkContentStep (st : StreamState) (oc : Option String) : StreamState :=
  match oc with
  | some c =>
    if c.isEmpty then st
    else { st with content_parts := st.content_parts ++ [c] }
  | none => st

/-- Folds one SSE chunk into the running state, in the source order:
finish_reason first, then the tool_calls entries (guarded by the
truthiness of delta["tool_calls"]), then truthy content. -/
def processChunk (st : StreamState) (ch : StreamChunk) : StreamState :=
  chunkContentStep
    (chunkToolStep (chunkFinishStep st ch.finish_reason) ch.delta.tool_calls)
    ch.delta.content

/-- Reduction of a whole parsed SSE chunk sequence from the empty
initial state, as the streaming loop of send_request. -/
def reduceStream (chunks : List StreamChunk) : StreamState :=
  chunks.foldl processChunk {}

/-- Insertion of a key into an ascending key list. -/
def insertKey (i : Nat) : List Nat → List Nat
  | [] => [i]
  | j :: l => if i ≤ j then i :: j :: l else j :: insertKey i l

/-- Ascending sort of the fragment keys, as sorted(tool_calls.keys())
over the unique keys of the dict. -/
def sortKeys : List Nat → List Nat
  | [] => []
  | i :: l => insertKey i (sortKeys l)

/-- Finalization of the fragment dict into the synthetic tool-call
list, in ascending index order. -/
def finalizeToolCalls (tcs : List (Nat × Fragment)) : List ToolCall :=
  (sortKeys (tcs.map (fun p => p.1))).map (fun i =>
    let f := (lookupFrag tcs i).getD { id := "", name := "", arguments := "" }
    { id := some f.id, type := some "function",
      function := some { name := some f.name, arguments := some f.arguments } })

/-- Finalization of the reduced state into the synthetic message the
streaming branch returns: content is the concatenation of the parts
and tool_calls is the finalized list when non-empty, otherwise the
key is present with value None (tc_list if tc_list else None). -/
def finalizeMessage (st : StreamState) : Message :=
  let tc_list := finalizeToolCalls st.tool_calls
  { content := some (some (joinAll st.content_parts)),
    tool_calls := some (if tc_list.isEmpty then none else some tc_list) }

/-- Finalization of the reduced state into the synthetic choices list
of the normalized streaming response. -/
def finalizeChoices (st : StreamState) : List Choice :=
  [{ message := some (finalizeMessage st),
     finish_reason := some st.finish_reason }]

-- ── Per-index projections of a delta sequence ─────────────────────

/-- Arguments text the entries of one list contribute to index i, in
arrival order. -/
def entriesArgs (i : Nat) (l : List StreamToolCallDelta) : String :=
  joinAll (l.map (fun tc => if tc.index = i then argOf tc else ""))

/-- Whether an entry list mentions index i. -/
def mentionsE (i : Nat) (l : List StreamToolCallDelta) : Bool :=
  l.any (fun tc => tc.index == i)

/-- Arguments text one chunk contributes to index i, honouring the
truthiness guard on delta["tool_calls"]. -/
def chunkArgs (i : Nat) (ch : StreamChunk) : String :=
  match ch.delta.tool_calls with
  | some l => if l.isEmpty then "" else entriesArgs i l
  | none => ""

/-- In-arrival-order concatenation of all arguments fragments carried
for index i across a chunk sequence. -/
def argsConcat (i : Nat) (chunks : List StreamChunk) : String :=
  joinAll (chunks.map (chunkArgs i))

/-- Whether one chunk carries a processed tool-call entry for index
i. -/
def mentionsC (i : Nat) (ch : StreamChunk) : Bool :=
  match ch.delta.tool_calls with
  | some l => !l.isEmpty && mentionsE i l
  | none => false

/-- Whether any chunk of the sequence carries a processed tool-call
entry for index i. -/
def mentionsS (i : Nat) (chunks : List StreamChunk) : Bool :=
  chunks.any (mentionsC i)

/-- Truthy function names the entries of one list carry for index i,
in arrival order. -/
def entryNames (i : Nat) (l : List StreamToolCallDelta) : List String :=
  l.filterMap (fun tc =>
    if tc.index = i then
      (if truthyS tc.fname then some (tc.fname.getD "") else none)
    else none)

/-- Truthy function names one chunk carries for index i. -/
def chunkNames (i : Nat) (ch : StreamChunk) : List String :=
  match ch.delta.tool_calls with
  | some l => if l.isEmpty then [] else entryNames i l
  | none => []

/-- Truthy function names carried for index i across a chunk
sequence, in arrival order. -/
def namesFor (i : Nat) (chunks : List StreamChunk) : List String :=
  (chunks.map (chunkNames i)).flatten

/-- Content parts appended by one chunk (a singleton for truthy
content, nothing otherwise). -/
def chunkContent (ch : StreamChunk) : List String :=
  match ch.delta.content with
  | some c => if c.isEmpty then [] else [c]
  | none => []

/-- All content deltas observed in a chunk sequence, whether truthy
or not. -/
def allContents (chunks : List StreamChunk) : List String :=
  chunks.filterMap (fun ch => ch.delta.content)

-- ── wait_for_server, modelled over observation traces ─────────────

/-- One top-of-loop observation of the wait_for_server polling loop:
the wall-clock reading time.time() takes at the loop condition,
whether proc.poll() reports the monitored process as exited, and
whether the readiness probe of this attempt answers HTTP 200. -/
structure PollObs where
  now : Nat
  procExited : Bool
  probeOk : Bool

/-- Model of wait_for_server over a trace of loop observations, in
the source order of checks: the deadline at the loop condition, then
the process-exit check, then the readiness probe; an undecided
iteration sleeps and consumes the next observation. The result is
none when the trace ends before the loop decides, which the real
loop cannot reach because time advances to the deadline. All log
output on the failure paths is a side effect outside the return
value and is not modelled. -/
def wait_for_server (deadline : Nat) : List PollObs → Option Bool
  | [] => none
  | o :: rest =>
    if deadline ≤ o.now then some false
    else if o.procExited then some false
    else if o.probeOk then some true
    else wait_for_server deadline rest

/-- Whether one observation decides the loop. -/
def decisiveObs (deadline : Nat) (o : PollObs) : Bool :=
  decide (deadline ≤ o.now) || o.procExited || o.probeOk

/-- Verdict the loop returns at its first decisive observation. -/
def obsVerdict (deadline : Nat) (o : PollObs) : Bool :=
  if deadline ≤ o.now then false
  else if o.procExited then false
  else true

-- ── Orchestration (run_parser_tests, regression runs, main) ───────

/-- Parser table of the script: parser name, compatible model id and
the reason string. -/
def PARSER_MODELS : List (String × String × String) :=
  [("hermes", "mlx-community/Qwen3-30B-A3B-4bit", "ChatML tokens available"),
   ("llama3_json", "mlx-community/Llama-3.3-70B-Instruct-4bit-DWQ", "Llama 3.3 70B"),
   ("gemma", "mlx-community/functiongemma-270m-it-bf16", "FunctionGemma 270M"),
   ("mistral", "mlx-community/mistralai_Devstral-Small-2-24B-Instruct-2512-MLX-8Bit",
     "Devstral Small 2 24B 8-bit"),
   ("qwen3_xml", "mlx-community/Qwen3-Coder-Next-4bit", "Native Qwen3 XML")]

/-- Lookup PARSER_MODELS.get(p): the (model id, reason) pair. -/
def lookupParserModel (p : String) : Option (String × String) :=
  (PARSER_MODELS.find? (fun e => e.1 == p)).map (fun e => e.2)

/-- Regression table: model id, description and the large flag. -/
def REGRESSION_MODELS : List (String × String × Bool) :=
  [("mlx-community/GLM-4.7-Flash-4bit", "auto-detect .glm4", true),
   ("mlx-community/Qwen3-30B-A3B-4bit", "auto-detect qwen3_moe", false),
   ("mlx-community/Qwen3-Coder-Next-4bit", "auto-detect .xmlFunction", true)]

/-- Large-model substrings filtered out of parser runs unless the
include-large flag is set. -/
def LARGE_MODELS : List String := ["Coder-Next", "70B", "397B", "Kimi-K2"]

/-- Substring membership, as the Python expression tag in model_id. -/
def containsSub (hay needle : String) : Bool :=
  (List.range (hay.length + 1)).any
    (fun k => needle.data.isPrefixOf (hay.data.drop k))

/-- Whether a model id matches the large-model exclusion list. -/
def isLargeModel (model_id : String) : Bool :=
  LARGE_MODELS.any (fun tag => containsSub model_id tag)

/-- Test cases of a parser run: name, prompt, expected tool name and
the streaming flag. -/
def TEST_CASES : List (String × String × Option String × Bool) :=
  [("weather_nonstream", "What is the weather in Tokyo?", some "get_weather", false),
   ("weather_stream", "What is the weather in London right now?", some "get_weather", true),
   ("calc_nonstream", "Use the calculator to compute 17 * 23 + 5", some "calculate", false),
   ("calc_stream", "Please calculate 99 * 101 using the tool", some "calculate", true)]

/-- Subset of the test cases a regression run executes. -/
def REGRESSION_CASES : List (String × String × Option String × Bool) :=
  [("weather_nonstream", "What is the weather in Tokyo?", some "get_weather", false),
   ("calc_stream", "Please calculate 99 * 101 using the tool", some "calculate", true)]

/-- One appended result record, restricted to the fields the claims
concern: the parser label, the model field (None for some skip
records), the test name and the passed flag. Timestamps, detail
dicts and the stream flag are carried along in the source but play
no role in the counted invariants. -/
structure TestResultRec where
  parser : String
  model : Option String
  test : String
  passed : Bool
deriving DecidableEq

/-- Effect oracles for one whole run: whether a model directory
exists on disk, whether the spawned server for a configuration label
becomes healthy, and the per-test-case pass verdict (covering both
the evaluated and the exception-recorded outcome, either of which
appends exactly one record). -/
structure RunEnv where
  dirExists : String → Bool
  serverStarts : String → Bool
  outcome : String → String → Bool

/-- Last path component of a model id, model_id.split("/")[-1]. -/
def modelShort (model_id : String) : String :=
  (model_id.splitOn "/").getLastD model_id

/-- Cache-relative model directory path,
os.path.join(MODEL_CACHE, "mlx-community", model_short). -/
def modelDir (cache model_id : String) : String :=
  cache ++ "/mlx-community/" ++ modelShort model_id

/-- Result records run_parser_tests appends for one configuration:
one failing server-start record when the health probe fails, else
one passing server-start record followed by exactly one record per
test case. -/
def run_parser_tests (parser model_id : String) (started : Bool)
    (outcome : String → Bool) : List TestResultRec :=
  if started then
    { parser := parser, model := some model_id,
      test := "server_start", passed := true } ::
    TEST_CASES.map (fun c =>
      { parser := parser, model := some model_id,
        test := c.1, passed := outcome c.1 })
  else
    [{ parser := parser, model := some model_id,
       test := "server_start", passed := false }]

/-- Result records run_regression_tests appends for one model, with
the auto: label and the regression case subset. -/
def run_regression_tests (label model_id : String) (started : Bool)
    (outcome : String → Bool) : List TestResultRec :=
  if started then
    { parser := label, model := some model_id,
      test := "server_start", passed := true } ::
    REGRESSION_CASES.map (fun c =>
      { parser := label, model := some model_id,
        test := c.1, passed := outcome c.1 })
  else
    [{ parser := label, model := some model_id,
       test := "server_start", passed := false }]

/-- Records the main parser loop appends for one selected parser
name: a skip record with model None for an unknown parser, a skip
record with the model id when the model directory is absent, and the
run_parser_tests records otherwise. -/
def parserConfigResults (cache : String) (env : RunEnv) (p : String) :
    List TestResultRec :=
  match lookupParserModel p with
  | none => [{ parser := p, model := none, test := "skipped", passed := false }]
  | some (model_id, _) =>
    if env.dirExists (modelDir cache model_id) then
      run_parser_tests p model_id (env.serverStarts p) (env.outcome p)
    else
      [{ parser := p, model := some model_id,
         test := "skipped", passed := false }]

/-- Parser section of main: without the include-large flag, selected
parsers whose model matches the large list are dropped from the
selection with only a log line - no record of any kind is appended
for them - and every surviving parser contributes its
parserConfigResults segment in order. -/
def parserSectionResults (cache : String) (env : RunEnv)
    (selected : List String) (include_large : Bool) : List TestResultRec :=
  let sel := if include_large then selected
    else selected.filter (fun p =>
      match lookupParserModel p with
      | some (model_id, _) => !isLargeModel model_id
      | none => true)
  (sel.map (parserConfigResults cache env)).flatten

/-- Records the regression loop of main appends for one table entry:
a skip record (model None) for a large entry without the
include-large flag, a skip record with the model id when the model
directory is absent, and the run_regression_tests records
otherwise. -/
def regressionConfigResults (cache : String) (env : RunEnv)
    (include_large : Bool) (entry : String × String × Bool) :
    List TestResultRec :=
  let model_id := entry.1
  let label := "auto:" ++ modelShort model_id
  if entry.2.2 ∧ ¬(include_large = true) then
    [{ parser := label, model := none, test := "skipped", passed := false }]
  else if env.dirExists (modelDir cache model_id) then
    run_regression_tests label model_id (env.serverStarts label)
      (env.outcome label)
  else
    [{ parser := label, model := some model_id,
       test := "skipped", passed := false }]

/-- Count of records of one test name inside a segment. -/
def countTest (rs : List TestResultRec) (t : String) : Nat :=
  (rs.filter (fun r => r.test == t)).length

/-- Count of per-test-case records inside a segment (everything that
is neither the synthetic server-start record nor a skip record). -/
def countCases (rs : List TestResultRec) : Nat :=
  (rs.filter (fun r => r.test != "server_start" && r.test != "skipped")).length

-- ── Lemmas about the stream reduction ─────────────────────────────

/-- Per-index view of one delta entry: how the optional fragment
stored for index i evolves when the entry is folded in. -/
def fragStep (i : Nat) (cur : Option Fragment) (tc : StreamToolCallDelta) :
    Option Fragment :=
  if tc.index = i then some (entryStep (cur.getD (seedFrag tc)) tc) else cur

/-- Per-index view of one whole chunk. -/
def chunkFragStep (i : Nat) (cur : Option Fragment) (ch : StreamChunk) :
    Option Fragment :=
  match ch.delta.tool_calls with
  | some l => if l.isEmpty then cur else l.foldl (fragStep i) cur
  | none => cur

theorem lookupFrag_updateFrag (tcs : List (Nat × Fragment)) (i j : Nat)
    (g : Fragment → Fragment) :
    lookupFrag (updateFrag tcs i g) j =
      if j = i then (lookupFrag tcs j).map g else lookupFrag tcs j := by
  induction tcs with
  | nil => simp [lookupFrag, updateFrag]
  | cons p rest ih =>
    simp only [updateFrag, List.map_cons] at ih ⊢
    by_cases hpi : p.1 = i
    · by_cases hpj : p.1 = j
      · have hji : j = i := by rw [← hpj, hpi]
        simp [lookupFrag, hpi, hpj, hji]
      · have hji : ¬(j = i) := fun h => hpj (by rw [hpi, ← h])
        have hij : ¬(i = j) := fun h => hji h.symm
        simp [lookupFrag, hpi, hpj, hji, hij, ih]
    · by_cases hpj : p.1 = j
      · have hji : ¬(j = i) := fun h => hpi (by rw [hpj, h])
        simp [lookupFrag, hpi, hpj, hji]
      · simp [lookupFrag, hpi, hpj, ih]

theorem lookupFrag_append_single (tcs : List (Nat × Fragment)) (k : Nat)
    (f : Fragment) (j : Nat) :
    lookupFrag (tcs ++ [(k, f)]) j =
      match lookupFrag tcs j with
      | some g => some g
      | none => if k = j then some f else none := by
  induction tcs with
  | nil => by_cases h : k = j <;> simp [lookupFrag, h]
  | cons p rest ih =>
    by_cases hpj : p.1 = j <;> simp [lookupFrag, hpj, ih]

theorem lookupFrag_apply (tcs : List (Nat × Fragment))
    (tc : StreamToolCallDelta) (j : Nat) :
    lookupFrag (applyToolCallDelta tcs tc) j =
      if j = tc.index then
        some (entryStep ((lookupFrag tcs tc.index).getD (seedFrag tc)) tc)
      else lookupFrag tcs j := by
  unfold applyToolCallDelta
  by_cases hs : (lookupFrag tcs tc.index).isSome
  · simp only [hs, if_true]
    rw [lookupFrag_updateFrag]
    by_cases hj : j = tc.index
    · subst hj
      obtain ⟨f, hf⟩ := Option.isSome_iff_exists.mp hs
      simp [hf]
    · simp [hj]
  · simp only [hs, Bool.false_eq_true, if_false]
    have hnone : lookupFrag tcs tc.index = none :=
      Option.not_isSome_iff_eq_none.mp (by simpa using hs)
    rw [lookupFrag_updateFrag]
    by_cases hj : j = tc.index
    · subst hj
      rw [lookupFrag_append_single, hnone]
      simp [hnone]
    · simp only [hj, if_false]
      rw [lookupFrag_append_single]
      have hne : ¬(tc.index = j) := fun h => hj h.symm
      cases hval : lookupFrag tcs j with
      | some g => simp
      | none => simp [hne]

theorem lookupFrag_foldl_entries (l : List StreamToolCallDelta) :
    ∀ (tcs : List (Nat × Fragment)) (i : Nat),
    lookupFrag (l.foldl applyToolCallDelta tcs) i =
      l.foldl (fragStep i) (lookupFrag tcs i) := by
  induction l with
  | nil => intro tcs i; rfl
  | cons tc l ih =>
    intro tcs i
    simp only [List.foldl_cons]
    rw [ih]
    congr 1
    rw [lookupFrag_apply]
    unfold fragStep
    by_cases h : tc.index = i
    · subst h; simp
    · have h2 : ¬(i = tc.index) := fun hh => h hh.symm
      simp [h, h2]

theorem tool_calls_finishStep (st : StreamState) (fr : Option String) :
    (chunkFinishStep st fr).tool_calls = st.tool_calls := by
  cases fr with
  | none => rfl
  | some s => by_cases h : s.isEmpty <;> simp [chunkFinishStep, h]

theorem content_finishStep (st : StreamState) (fr : Option String) :
    (chunkFinishStep st fr).content_parts = st.content_parts := by
  cases fr with
  | none => rfl
  | some s => by_cases h : s.isEmpty <;> simp [chunkFinishStep, h]

theorem tool_calls_contentStep (st : StreamState) (oc : Option String) :
    (chunkContentStep st oc).tool_calls = st.tool_calls := by
  cases oc with
  | none => rfl
  | some c => by_cases h : c.isEmpty <;> simp [chunkContentStep, h]

theorem content_toolStep (st : StreamState)
    (otc : Option (List StreamToolCallDelta)) :
    (chunkToolStep st otc).content_parts = st.content_parts := by
  cases otc with
  | none => rfl
  | some l => by_cases h : l.isEmpty <;> simp [chunkToolStep, h]

theorem tool_calls_processChunk (st : StreamState) (ch : StreamChunk) :
    (processChunk st ch).tool_calls =
      match ch.delta.tool_calls with
      | some l => if l.isEmpty then st.tool_calls
                  else l.foldl applyToolCallDelta st.tool_calls
      | none => st.tool_calls := by
  unfold processChunk
  rw [tool_calls_contentStep]
  cases ch.delta.tool_calls with
  | none => simp [chunkToolStep, tool_calls_finishStep]
  | some l =>
    by_cases h : l.isEmpty <;>
      simp [chunkToolStep, h, tool_calls_finishStep]

theorem lookupFrag_processChunk (st : StreamState) (ch : StreamChunk)
    (i : Nat) :
    lookupFrag (processChunk st ch).tool_calls i =
      chunkFragStep i (lookupFrag st.tool_calls i) ch := by
  rw [tool_calls_processChunk]
  unfold chunkFragStep
  cases ch.delta.tool_calls with
  | none => rfl
  | some l =>
    by_cases h : l.isEmpty <;> simp [h, lookupFrag_foldl_entries]

theorem lookupFrag_reduce_aux (chunks : List StreamChunk) :
    ∀ (st : StreamState) (i : Nat),
    lookupFrag ((chunks.foldl processChunk st).tool_calls) i =
      chunks.foldl (chunkFragStep i) (lookupFrag st.tool_calls i) := by
  induction chunks with
  | nil => intro st i; rfl
  | cons ch chunks ih =>
    intro st i
    simp only [List.foldl_cons]
    rw [ih, lookupFrag_processChunk]

theorem entriesArgs_cons (i : Nat) (tc : StreamToolCallDelta)
    (l : List StreamToolCallDelta) :
    entriesArgs i (tc :: l) =
      (if tc.index = i then argOf tc else "") ++ entriesArgs i l := rfl

theorem entriesArgs_of_not_mentions (i : Nat) (l : List StreamToolCallDelta)
    (h : mentionsE i l = false) : entriesArgs i l = "" := by
  induction l with
  | nil => rfl
  | cons tc l ih =>
    simp only [mentionsE, List.any_cons, Bool.or_eq_false_iff] at h
    have hidx : ¬(tc.index = i) := by
      intro hh; rw [hh] at h; simp at h
    rw [entriesArgs_cons, if_neg hidx, strNilAppend]
    exact ih (by simpa [mentionsE] using h.2)

theorem foldl_fragStep_args (i : Nat) (l : List StreamToolCallDelta) :
    ∀ cur : Option Fragment,
    ((l.foldl (fragStep i) cur).map Fragment.arguments) =
      match cur with
      | some f => some (f.arguments ++ entriesArgs i l)
      | none => if mentionsE i l then some (entriesArgs i l) else none := by
  induction l with
  | nil =>
    intro cur
    cases cur with
    | some f => simp [entriesArgs, joinAll, strAppendNil]
    | none => simp [mentionsE]
  | cons tc l ih =>
    intro cur
    simp only [List.foldl_cons]
    rw [ih]
    by_cases hidx : tc.index = i
    · cases cur with
      | some f =>
        simp only [fragStep, hidx, if_true, entriesArgs_cons, entryStep]
        rw [strAppendAssoc]
        rfl
      | none =>
        have hm : mentionsE i (tc :: l) = true := by simp [mentionsE, hidx]
        simp only [fragStep, hidx, if_true, entriesArgs_cons, entryStep,
          seedFrag, hm]
        show some (("" ++ argOf tc) ++ entriesArgs i l) =
          some (argOf tc ++ entriesArgs i l)
        rw [strNilAppend]
    · have hm : mentionsE i (tc :: l) = mentionsE i l := by
        simp [mentionsE, hidx]
      cases cur with
      | some f =>
        simp only [fragStep, hidx, if_false, entriesArgs_cons]
        rw [strNilAppend]
      | none =>
        simp only [fragStep, hidx, if_false, entriesArgs_cons, hm]
        rw [strNilAppend]

theorem foldl_fragStep_of_not_mentions (i : Nat)
    (l : List StreamToolCallDelta) (h : mentionsE i l = false) :
    ∀ cur : Option Fragment, l.foldl (fragStep i) cur = cur := by
  induction l with
  | nil => intro cur; rfl
  | cons tc l ih =>
    intro cur
    simp only [mentionsE, List.any_cons, Bool.or_eq_false_iff] at h
    have hidx : ¬(tc.index = i) := by
      intro hh; rw [hh] at h; simp at h
    simp only [List.foldl_cons, fragStep, hidx, if_false]
    exact ih (by simpa [mentionsE] using h.2) cur

theorem chunkArgs_of_not_mentions (i : Nat) (ch : StreamChunk)
    (h : mentionsC i ch = false) : chunkArgs i ch = "" := by
  unfold mentionsC at h
  unfold chunkArgs
  cases htc : ch.delta.tool_calls with
  | none => rfl
  | some l =>
    rw [htc] at h
    have h2 : (!l.isEmpty && mentionsE i l) = false := h
    show (if l.isEmpty = true then "" else entriesArgs i l) = ""
    by_cases he : l.isEmpty
    · simp [he]
    · have he2 : l.isEmpty = false := by revert he; cases l.isEmpty <;> simp
      rw [he2] at h2
      simp only [Bool.not_false, Bool.true_and] at h2
      simp only [if_neg he]
      exact entriesArgs_of_not_mentions i l h2

theorem argsConcat_cons (i : Nat) (ch : StreamChunk)
    (chunks : List StreamChunk) :
    argsConcat i (ch :: chunks) = chunkArgs i ch ++ argsConcat i chunks := rfl

theorem foldl_chunkFragStep_args (i : Nat) (chunks : List StreamChunk) :
    ∀ cur : Option Fragment,
    ((chunks.foldl (chunkFragStep i) cur).map Fragment.arguments) =
      match cur with
      | some f => some (f.arguments ++ argsConcat i chunks)
      | none => if mentionsS i chunks then some (argsConcat i chunks)
                else none := by
  induction chunks with
  | nil =>
    intro cur
    cases cur with
    | some f => simp [argsConcat, joinAll, strAppendNil]
    | none => simp [mentionsS]
  | cons ch chunks ih =>
    intro cur
    simp only [List.foldl_cons]
    rw [ih]
    by_cases hm : mentionsC i ch
    · -- the chunk carries an entry for index i
      have htc : ∃ l, ch.delta.tool_calls = some l ∧ l.isEmpty = false ∧
          mentionsE i l = true := by
        unfold mentionsC at hm
        cases htc2 : ch.delta.tool_calls with
        | none => rw [htc2] at hm; simp at hm
        | some l =>
          rw [htc2] at hm
          simp only [Bool.and_eq_true, Bool.not_eq_true'] at hm
          exact ⟨l, rfl, hm.1, hm.2⟩
      obtain ⟨l, hl, hle, hme⟩ := htc
      have hstep : chunkFragStep i cur ch = l.foldl (fragStep i) cur := by
        simp [chunkFragStep, hl, hle]
      have hargs : chunkArgs i ch = entriesArgs i l := by
        simp [chunkArgs, hl, hle]
      rw [hstep]
      have hchar := foldl_fragStep_args i l cur
      have hms : mentionsS i (ch :: chunks) = true := by
        simp [mentionsS, hm]
      cases cur with
      | some f =>
        cases hr : l.foldl (fragStep i) (some f) with
        | none => rw [hr] at hchar; simp at hchar
        | some g =>
          rw [hr] at hchar
          have hg : g.arguments = f.arguments ++ entriesArgs i l := by
            simpa using hchar
          simp only [argsConcat_cons, hargs, hms]
          simp [hg, strAppendAssoc]
      | none =>
        cases hr : l.foldl (fragStep i) none with
        | none =>
          rw [hr] at hchar
          rw [hme] at hchar
          simp at hchar
        | some g =>
          rw [hr] at hchar
          rw [hme] at hchar
          have hg : g.arguments = entriesArgs i l := by simpa using hchar
          simp only [argsConcat_cons, hargs, hms, if_true]
          simp [hg]
    · -- the chunk carries no entry for index i
      have hmf : mentionsC i ch = false := by
        revert hm; cases mentionsC i ch <;> simp
      have hstep : chunkFragStep i cur ch = cur := by
        unfold chunkFragStep
        cases htc2 : ch.delta.tool_calls with
        | none => rfl
        | some l =>
          by_cases he : l.isEmpty
          · simp [he]
          · unfold mentionsC at hmf
            rw [htc2] at hmf
            simp only [he, if_neg he] at hmf ⊢
            have hme : mentionsE i l = false := by
              revert hmf
              cases mentionsE i l <;> cases hb : l.isEmpty <;> simp_all
            exact foldl_fragStep_of_not_mentions i l hme cur
      rw [hstep]
      have hms : mentionsS i (ch :: chunks) = mentionsS i chunks := by
        simp [mentionsS, hmf]
      have hca : chunkArgs i ch = "" := chunkArgs_of_not_mentions i ch hmf
      simp only [argsConcat_cons, hca, hms]
      cases cur with
      | some f => rw [strNilAppend]
      | none => rw [strNilAppend]

theorem entryNames_cons (i : Nat) (tc : StreamToolCallDelta)
    (l : List StreamToolCallDelta) :
    entryNames i (tc :: l) =
      (if tc.index = i then
        (if truthyS tc.fname then [tc.fname.getD ""] else [])
       else []) ++ entryNames i l := by
  by_cases hidx : tc.index = i
  · by_cases ht : truthyS tc.fname <;>
      simp [entryNames, List.filterMap_cons, hidx, ht]
  · simp [entryNames, List.filterMap_cons, hidx]

theorem entryNames_of_not_mentions (i : Nat) (l : List StreamToolCallDelta)
    (h : mentionsE i l = false) : entryNames i l = [] := by
  induction l with
  | nil => rfl
  | cons tc l ih =>
    simp only [mentionsE, List.any_cons, Bool.or_eq_false_iff] at h
    have hidx : ¬(tc.index = i) := by
      intro hh; rw [hh] at h; simp at h
    rw [entryNames_cons, if_neg hidx, List.nil_append]
    exact ih (by simpa [mentionsE] using h.2)

theorem foldl_fragStep_name (i : Nat) (l : List StreamToolCallDelta) :
    ∀ cur : Option Fragment,
    ((l.foldl (fragStep i) cur).map Fragment.name) =
      match cur with
      | some f => some (lastD (entryNames i l) f.name)
      | none => if mentionsE i l then some (lastD (entryNames i l) "")
                else none := by
  induction l with
  | nil =>
    intro cur
    cases cur with
    | some f => simp [entryNames, lastD]
    | none => simp [mentionsE]
  | cons tc l ih =>
    intro cur
    simp only [List.foldl_cons]
    rw [ih]
    by_cases hidx : tc.index = i
    · have hm : mentionsE i (tc :: l) = true := by simp [mentionsE, hidx]
      by_cases ht : truthyS tc.fname
      · cases cur with
        | some f =>
          simp only [fragStep, hidx, if_true, entryStep, ht,
            entryNames_cons, hm]
          simp [lastD]
        | none =>
          simp only [fragStep, hidx, if_true, entryStep, ht,
            entryNames_cons, hm, seedFrag]
          simp [lastD]
      · have ht2 : truthyS tc.fname = false := by
          revert ht; cases truthyS tc.fname <;> simp
        cases cur with
        | some f =>
          simp only [fragStep, hidx, if_true, entryStep, ht2,
            entryNames_cons, hm]
          simp [lastD]
        | none =>
          simp only [fragStep, hidx, if_true, entryStep, ht2,
            entryNames_cons, hm, seedFrag]
          simp [lastD]
    · have hm : mentionsE i (tc :: l) = mentionsE i l := by
        simp [mentionsE, hidx]
      cases cur with
      | some f => simp [fragStep, hidx, entryNames_cons, hm]
      | none => simp [fragStep, hidx, entryNames_cons, hm]

theorem namesFor_cons (i : Nat) (ch : StreamChunk)
    (chunks : List StreamChunk) :
    namesFor i (ch :: chunks) = chunkNames i ch ++ namesFor i chunks := by
  simp [namesFor]

theorem chunkNames_of_not_mentions (i : Nat) (ch : StreamChunk)
    (h : mentionsC i ch = false) : chunkNames i ch = [] := by
  unfold mentionsC at h
  unfold chunkNames
  cases htc : ch.delta.tool_calls with
  | none => rfl
  | some l =>
    rw [htc] at h
    have h2 : (!l.isEmpty && mentionsE i l) = false := h
    show (if l.isEmpty = true then [] else entryNames i l) = []
    by_cases he : l.isEmpty
    · simp [he]
    · have he2 : l.isEmpty = false := by revert he; cases l.isEmpty <;> simp
      rw [he2] at h2
      simp only [Bool.not_false, Bool.true_and] at h2
      simp only [if_neg he]
      exact entryNames_of_not_mentions i l h2

theorem foldl_chunkFragStep_name (i : Nat) (chunks : List StreamChunk) :
    ∀ cur : Option Fragment,
    ((chunks.foldl (chunkFragStep i) cur).map Fragment.name) =
      match cur with
      | some f => some (lastD (namesFor i chunks) f.name)
      | none => if mentionsS i chunks then some (lastD (namesFor i chunks) "")
                else none := by
  induction chunks with
  | nil =>
    intro cur
    cases cur with
    | some f => simp [namesFor, lastD]
    | none => simp [mentionsS]
  | cons ch chunks ih =>
    intro cur
    simp only [List.foldl_cons]
    rw [ih]
    by_cases hm : mentionsC i ch
    · have htc : ∃ l, ch.delta.tool_calls = some l ∧ l.isEmpty = false ∧
          mentionsE i l = true := by
        unfold mentionsC at hm
        cases htc2 : ch.delta.tool_calls with
        | none => rw [htc2] at hm; simp at hm
        | some l =>
          rw [htc2] at hm
          simp only [Bool.and_eq_true, Bool.not_eq_true'] at hm
          exact ⟨l, rfl, hm.1, hm.2⟩
      obtain ⟨l, hl, hle, hme⟩ := htc
      have hstep : chunkFragStep i cur ch = l.foldl (fragStep i) cur := by
        simp [chunkFragStep, hl, hle]
      have hnames : chunkNames i ch = entryNames i l := by
        simp [chunkNames, hl, hle]
      rw [hstep]
      have hchar := foldl_fragStep_name i l cur
      have hms : mentionsS i (ch :: chunks) = true := by
        simp [mentionsS, hm]
      cases cur with
      | some f =>
        cases hr : l.foldl (fragStep i) (some f) with
        | none => rw [hr] at hchar; simp at hchar
        | some g =>
          rw [hr] at hchar
          have hg : g.name = lastD (entryNames i l) f.name := by
            simpa using hchar
          simp only [namesFor_cons, hnames, hms]
          simp [hg, lastD_append]
      | none =>
        cases hr : l.foldl (fragStep i) none with
        | none =>
          rw [hr] at hchar
          rw [hme] at hchar
          simp at hchar
        | some g =>
          rw [hr] at hchar
          rw [hme] at hchar
          have hg : g.name = lastD (entryNames i l) "" := by simpa using hchar
          simp only [namesFor_cons, hnames, hms, if_true]
          simp [hg, lastD_append]
    · have hmf : mentionsC i ch = false := by
        revert hm; cases mentionsC i ch <;> simp
      have hstep : chunkFragStep i cur ch = cur := by
        unfold chunkFragStep
        cases htc2 : ch.delta.tool_calls with
        | none => rfl
        | some l =>
          by_cases he : l.isEmpty
          · simp [he]
          · unfold mentionsC at hmf
            rw [htc2] at hmf
            simp only [he, if_neg he] at hmf ⊢
            have hme : mentionsE i l = false := by
              revert hmf
              cases mentionsE i l <;> cases hb : l.isEmpty <;> simp_all
            exact foldl_fragStep_of_not_mentions i l hme cur
      rw [hstep]
      have hms : mentionsS i (ch :: chunks) = mentionsS i chunks := by
        simp [mentionsS, hmf]
      have hcn : chunkNames i ch = [] := chunkNames_of_not_mentions i ch hmf
      simp only [namesFor_cons, hcn, List.nil_append, hms]

-- ── Content accumulation lemmas ───────────────────────────────────

theorem content_processChunk (st : StreamState) (ch : StreamChunk) :
    (processChunk st ch).content_parts =
      st.content_parts ++ chunkContent ch := by
  unfold processChunk
  cases hc : ch.delta.content with
  | none =>
    simp [chunkContentStep, chunkContent, hc, content_toolStep,
      content_finishStep]
  | some c =>
    by_cases he : c.isEmpty <;>
      simp [chunkContentStep, chunkContent, hc, he, content_toolStep,
        content_finishStep]

theorem content_reduce_aux (chunks : List StreamChunk) :
    ∀ st : StreamState,
    (chunks.foldl processChunk st).content_parts =
      st.content_parts ++ (chunks.map chunkContent).flatten := by
  induction chunks with
  | nil => intro st; simp
  | cons ch chunks ih =>
    intro st
    simp only [List.foldl_cons, List.map_cons, List.flatten_cons]
    rw [ih, content_processChunk, List.append_assoc]

theorem joinAll_append (a b : List String) :
    joinAll (a ++ b) = joinAll a ++ joinAll b := by
  induction a with
  | nil => simp [joinAll, strNilAppend]
  | cons s a ih =>
    show s ++ joinAll (a ++ b) = (s ++ joinAll a) ++ joinAll b
    rw [ih, strAppendAssoc]

theorem joinAll_chunkContents (chunks : List StreamChunk) :
    joinAll ((chunks.map chunkContent).flatten) =
      joinAll (allContents chunks) := by
  induction chunks with
  | nil => rfl
  | cons ch chunks ih =>
    simp only [List.map_cons, List.flatten_cons, allContents,
      List.filterMap_cons]
    cases hc : ch.delta.content with
    | none => simp [chunkContent, hc, ih, strNilAppend, allContents]
    | some c =>
      by_cases he : c.isEmpty
      · have hce : c = "" := (String.isEmpty_iff c).mp he
        simp only [chunkContent, hc, he, if_true]
        rw [joinAll_append]
        show joinAll [] ++ joinAll ((chunks.map chunkContent).flatten) =
          joinAll (c :: allContents chunks)
        rw [hce]
        show "" ++ joinAll ((chunks.map chunkContent).flatten) =
          "" ++ joinAll (allContents chunks)
        rw [ih]
      · simp only [chunkContent, hc, he, if_false]
        rw [joinAll_append]
        show joinAll [c] ++ joinAll ((chunks.map chunkContent).flatten) =
          joinAll (c :: allContents chunks)
        rw [ih]
        show (c ++ "") ++ joinAll (allContents chunks) =
          c ++ joinAll (allContents chunks)
        rw [strAppendNil]

/-- Truthiness of delta["tool_calls"]: the chunk carries a tool-call
entry when the key is present with a non-empty list. -/
def carriesToolEntry (ch : StreamChunk) : Bool :=
  match ch.delta.tool_calls with
  | some l => !l.isEmpty
  | none => false

theorem tool_calls_foldl_no_entries (chunks : List StreamChunk)
    (h : chunks.all (fun ch => !carriesToolEntry ch) = true) :
    ∀ st : StreamState,
    (chunks.foldl processChunk st).tool_calls = st.tool_calls := by
  induction chunks with
  | nil => intro st; rfl
  | cons ch chunks ih =>
    intro st
    simp only [List.all_cons, Bool.and_eq_true] at h
    simp only [List.foldl_cons]
    rw [ih h.2, tool_calls_processChunk]
    have h1 : carriesToolEntry ch = false := by
      have := h.1
      revert this
      cases carriesToolEntry ch <;> simp
    unfold carriesToolEntry at h1
    cases htc : ch.delta.tool_calls with
    | none => rfl
    | some l =>
      rw [htc] at h1
      have h1b : (!l.isEmpty) = false := h1
      have : l.isEmpty = true := by simpa using h1b
      simp [this]

theorem namesFor_of_not_mentionsS (i : Nat) (chunks : List StreamChunk)
    (h : mentionsS i chunks = false) : namesFor i chunks = [] := by
  induction chunks with
  | nil => rfl
  | cons ch chunks ih =>
    simp only [mentionsS, List.any_cons, Bool.or_eq_false_iff] at h
    rw [namesFor_cons, chunkNames_of_not_mentions i ch h.1, List.nil_append]
    exact ih (by simpa [mentionsS] using h.2)

/-- First SSE chunk of the re-chunking example in the spec. -/
def romeChunk1 : StreamChunk :=
  { delta := { tool_calls := some [{ index := 0, fargs := some "\x7b\"ci" }] } }

/-- Second SSE chunk of the re-chunking example in the spec. -/
def romeChunk2 : StreamChunk :=
  { delta := { tool_calls := some [{ index := 0, fargs := some "ty\":\"Rome\"\x7d" }] } }

/-- Finalized tool call the two Rome chunks reduce to. -/
def romeToolCall : ToolCall :=
  { id := some "", type := some "function",
    function := some { name := some "", arguments := some "\x7b\"city\":\"Rome\"\x7d" } }

/-- C1: for every streamed SSE delta sequence and every tool-call
index i, the arguments string the stream reduction of send_request
accumulates for i equals the in-arrival-order concatenation of the
arguments fragments carried for i across all deltas, so the result
is invariant under re-chunking of the same logical fragment
sequence; in particular the two chunks carrying the fragments of the
arguments text for Rome reduce to the full JSON arguments object. -/
theorem C1_stream_args_concatenation :
    (∀ (chunks : List StreamChunk) (i : Nat),
      ((lookupFrag (reduceStream chunks).tool_calls i).map
          Fragment.arguments) =
        (if mentionsS i chunks then some (argsConcat i chunks) else none)) ∧
    (finalizeMessage (reduceStream [romeChunk1, romeChunk2])).tool_calls =
      some (some [romeToolCall]) := by
  constructor
  · intro chunks i
    unfold reduceStream
    rw [lookupFrag_reduce_aux]
    have h3 : lookupFrag ({} : StreamState).tool_calls i = none := rfl
    rw [h3]
    exact foldl_chunkFragStep_args i chunks none
  · rfl

/-- C2: for every streamed delta sequence and every tool-call index,
if at least one delta specifies a (truthy) function name for that
index, the finalized name for that index is the name carried by the
last such delta - last-write-wins - regardless of interleaved
id-update or argument-append operations on that or other indices. -/
theorem C2_stream_name_last_write_wins (chunks : List StreamChunk)
    (i : Nat) (pre : List String) (n : String)
    (h : namesFor i chunks = pre ++ [n]) :
    ((lookupFrag (reduceStream chunks).tool_calls i).map Fragment.name) =
      some n := by
  have hchar : ((lookupFrag (reduceStream chunks).tool_calls i).map
      Fragment.name) =
      (if mentionsS i chunks then some (lastD (namesFor i chunks) "")
       else none) := by
    unfold reduceStream
    rw [lookupFrag_reduce_aux]
    have h3 : lookupFrag ({} : StreamState).tool_calls i = none := rfl
    rw [h3]
    exact foldl_chunkFragStep_name i chunks none
  have hm : mentionsS i chunks = true := by
    by_contra hc
    have hf : mentionsS i chunks = false := by
      revert hc; cases mentionsS i chunks <;> simp
    have := namesFor_of_not_mentionsS i chunks hf
    rw [this] at h
    exact absurd h.symm (List.append_ne_nil_of_right_ne_nil pre (by simp))
  rw [hchar, hm]
  show some (lastD (namesFor i chunks) "") = some n
  rw [h, lastD_append]
  rfl

/-- Delta sequence of the C2 witness: a first name, then an
id-and-arguments delta, then a final name on the same index. -/
def c2Chunks : List StreamChunk :=
  [{ delta := { tool_calls := some [{ index := 0, fname := some "first" }] } },
   { delta := { tool_calls := some [{ index := 0, id := some "call_1", fargs := some "\x7b" }] } },
   { delta := { tool_calls := some [{ index := 0, fname := some "get_weather" }] } }]

/-- Witness for C2 at a concrete stream: two name deltas for index 0
with interleaved id and argument updates finalize to the last
name. -/
theorem C2_stream_name_last_write_wins_witness :
    ((lookupFrag (reduceStream c2Chunks).tool_calls 0).map Fragment.name) =
      some "get_weather" :=
  C2_stream_name_last_write_wins c2Chunks 0 ["first"] "get_weather" (by decide)

/-- Stream of the C3 example: one content delta, no tool-call
entries. -/
def c3Chunks : List StreamChunk :=
  [{ delta := { content := some "It is sunny." } }]

/-- Counterexample to C3 as stated: for a stream with zero tool-call
deltas the finalized message stores the tool_calls key with value
None (null), not with an empty list, so the claimed
empty-but-present list does not hold. -/
theorem C3_counterexample_null_not_empty :
    (finalizeMessage (reduceStream c3Chunks)).tool_calls = some none ∧
    ¬((finalizeMessage (reduceStream c3Chunks)).tool_calls =
        some (some ([] : List ToolCall))) := by
  constructor
  · rfl
  · intro h
    have h2 : (some none : Option (Option (List ToolCall))) =
        some (some []) := by
      rw [← h]; rfl
    exact Option.noConfusion (Option.some.inj h2)

/-- C3 amended: for every streamed response in which no delta carries
a tool-call entry, the finalized message stores tool_calls as None
(the key is present with a null value, rather than an empty list),
and its content equals the concatenation, in arrival order, of all
content deltas observed in the stream. -/
theorem C3_no_tool_deltas_amended (chunks : List StreamChunk)
    (h : chunks.all (fun ch => !carriesToolEntry ch) = true) :
    (finalizeMessage (reduceStream chunks)).tool_calls = some none ∧
    (finalizeMessage (reduceStream chunks)).content =
      some (some (joinAll (allContents chunks))) := by
  have htc : (reduceStream chunks).tool_calls = [] := by
    unfold reduceStream
    rw [tool_calls_foldl_no_entries chunks h]
  have hcp : (reduceStream chunks).content_parts =
      (chunks.map chunkContent).flatten := by
    unfold reduceStream
    rw [content_reduce_aux]
    rfl
  constructor
  · simp [finalizeMessage, htc, finalizeToolCalls, sortKeys]
  · simp only [finalizeMessage, hcp]
    rw [joinAll_chunkContents]

/-- Witness for C3 amended at the concrete one-content stream. -/
theorem C3_no_tool_deltas_amended_witness :
    (finalizeMessage (reduceStream c3Chunks)).tool_calls = some none ∧
    (finalizeMessage (reduceStream c3Chunks)).content =
      some (some (joinAll (allContents c3Chunks))) :=
  C3_no_tool_deltas_amended c3Chunks rfl

/-- C9: in the stream reduction, a delta entry whose id, function
name or arguments field is absent or present as the empty string
leaves the corresponding component of the stored fragment for that
index unchanged: only a non-empty id or name overwrites the stored
id or name, only a non-empty arguments fragment extends the stored
arguments, and an all-empty entry leaves the stored fragment exactly
as it was. -/
theorem C9_empty_fields_do_not_erase (tcs : List (Nat × Fragment))
    (i : Nat) (f : Fragment) (tc : StreamToolCallDelta)
    (hf : lookupFrag tcs i = some f) (hidx : tc.index = i) :
    ((tc.id = none ∨ tc.id = some "") →
      ((lookupFrag (applyToolCallDelta tcs tc) i).map Fragment.id) =
        some f.id) ∧
    ((tc.fname = none ∨ tc.fname = some "") →
      ((lookupFrag (applyToolCallDelta tcs tc) i).map Fragment.name) =
        some f.name) ∧
    ((tc.fargs = none ∨ tc.fargs = some "") →
      ((lookupFrag (applyToolCallDelta tcs tc) i).map Fragment.arguments) =
        some f.arguments) ∧
    ((tc.id = none ∨ tc.id = some "") →
      (tc.fname = none ∨ tc.fname = some "") →
      (tc.fargs = none ∨ tc.fargs = some "") →
      lookupFrag (applyToolCallDelta tcs tc) i = some f) := by
  have hlk : lookupFrag (applyToolCallDelta tcs tc) i =
      some (entryStep f tc) := by
    rw [lookupFrag_apply, hidx, if_pos rfl, hf]
    rfl
  have hid : (tc.id = none ∨ tc.id = some "") → truthyS tc.id = false := by
    rintro (h | h) <;> rw [h] <;> rfl
  have hnm : (tc.fname = none ∨ tc.fname = some "") →
      truthyS tc.fname = false := by
    rintro (h | h) <;> rw [h] <;> rfl
  have hag : (tc.fargs = none ∨ tc.fargs = some "") →
      truthyS tc.fargs = false := by
    rintro (h | h) <;> rw [h] <;> rfl
  refine ⟨?_, ?_, ?_, ?_⟩
  · intro h
    rw [hlk]
    simp [entryStep, hid h]
  · intro h
    rw [hlk]
    simp [entryStep, hnm h]
  · intro h
    rw [hlk]
    simp [entryStep, argOf, hag h, strAppendNil]
  · intro h1 h2 h3
    rw [hlk]
    have : entryStep f tc = f := by
      simp [entryStep, argOf, hid h1, hnm h2, hag h3, strAppendNil]
    rw [this]

/-- Stored fragment of the C9 witness. -/
def c9Frag : Fragment :=
  { id := "call_9", name := "get_weather", arguments := "\x7b\"ci" }

/-- Delta entry of the C9 witness: id and name present but empty,
arguments absent. -/
def c9Delta : StreamToolCallDelta :=
  { index := 0, id := some "", fname := some "", fargs := none }

/-- Witness for C9 at a concrete stored fragment and an entry whose
id and name are present but empty and whose arguments are absent. -/
theorem C9_empty_fields_do_not_erase_witness :
    lookupFrag (applyToolCallDelta [(0, c9Frag)] c9Delta) 0 = some c9Frag :=
  (C9_empty_fields_do_not_erase [(0, c9Frag)] 0 c9Frag c9Delta
    rfl rfl).2.2.2 (Or.inr rfl) (Or.inr rfl) (Or.inl rfl)

-- ── Claims about evaluate_response ────────────────────────────────

/-- C5: for every response with at least one choice, when a specific
tool is expected and the (normalized) tool-call list of the first
choice is empty, evaluate_response fails with the exact error text
of the source and a detail carrying the finish reason and a content
snippet of at most 200 characters. -/
theorem C5_expected_but_none (c : Choice) (rest : List Choice)
    (expected : Option String)
    (hexp : truthyS expected = true)
    (htc : (((c.message.getD {}).tool_calls).join).getD [] = []) :
    (evaluate_response (c :: rest) expected).1 = false ∧
    (evaluate_response (c :: rest) expected).2.error =
      some "Expected tool_calls but got none" ∧
    (evaluate_response (c :: rest) expected).2.finish_reason =
      some (finishGet c.finish_reason) ∧
    (evaluate_response (c :: rest) expected).2.content_snippet =
      some (pySlice ((((c.message.getD {}).content).join).getD "") 200) := by
  have hev : evaluate_response (c :: rest) expected =
      evalExpected [] ((((c.message.getD {}).content).join).getD "")
        (finishGet c.finish_reason) (expected.getD "") := by
    simp only [evaluate_response]
    rw [htc, hexp]
    simp
  rw [hev]
  exact ⟨rfl, rfl, rfl, rfl⟩

/-- Choice of the C5 witness: a message with no tool_calls key, a
content string and a finish reason. -/
def c5Choice : Choice :=
  { message := some { content := some (some "I cannot call tools.") },
    finish_reason := some (some "stop") }

/-- Witness for C5 at a concrete tool-expecting response with no
tool calls. -/
theorem C5_expected_but_none_witness :
    (evaluate_response [c5Choice] (some "calculate")).1 = false ∧
    (evaluate_response [c5Choice] (some "calculate")).2.error =
      some "Expected tool_calls but got none" ∧
    (evaluate_response [c5Choice] (some "calculate")).2.finish_reason =
      some (finishGet c5Choice.finish_reason) ∧
    (evaluate_response [c5Choice] (some "calculate")).2.content_snippet =
      some (pySlice ((((c5Choice.message.getD {}).content).join).getD "") 200) :=
  C5_expected_but_none c5Choice [] (some "calculate") rfl rfl

/-- C6: for every response whose first tool call carries the expected
name and whose arguments parse to a JSON object containing the
required key of the expected tool, evaluate_response passes with a
detail carrying the tool name, the parsed arguments, the finish
reason and the tool-call count; the verdict holds for every tail of
further tool calls, which are never inspected. -/
theorem C6_first_call_pass (c : Choice) (rest : List Choice)
    (expected : Option String) (tc : ToolCall) (tcrest : List ToolCall)
    (kvs : List (String × JValue))
    (hexp : truthyS expected = true)
    (htc : (((c.message.getD {}).tool_calls).join).getD [] = tc :: tcrest)
    (hname : ((tc.function.getD {}).name).getD "" = expected.getD "")
    (hargs : json_loads (((tc.function.getD {}).arguments).getD "") =
      .ok (.obj kvs))
    (hkey1 : expected.getD "" = "get_weather" → hasKey kvs "city" = true)
    (hkey2 : expected.getD "" = "calculate" → hasKey kvs "expression" = true) :
    (evaluate_response (c :: rest) expected).1 = true ∧
    (evaluate_response (c :: rest) expected).2.tool_name =
      some (expected.getD "") ∧
    (evaluate_response (c :: rest) expected).2.arguments = some kvs ∧
    (evaluate_response (c :: rest) expected).2.finish_reason =
      some (finishGet c.finish_reason) ∧
    (evaluate_response (c :: rest) expected).2.num_tool_calls =
      some (tc :: tcrest).length := by
  have hev : evaluate_response (c :: rest) expected =
      evalExpected (tc :: tcrest)
        ((((c.message.getD {}).content).join).getD "")
        (finishGet c.finish_reason) (expected.getD "") := by
    simp only [evaluate_response]
    rw [htc, hexp]
    simp
  have hbody : evalExpected (tc :: tcrest)
      ((((c.message.getD {}).content).join).getD "")
      (finishGet c.finish_reason) (expected.getD "") =
      (true, { tool_name := some (((tc.function.getD {}).name).getD ""),
               arguments := some kvs,
               finish_reason := some (finishGet c.finish_reason),
               num_tool_calls := some (tc :: tcrest).length }) := by
    simp only [evalExpected]
    rw [if_neg (by rw [hname]; exact fun h => h rfl)]
    rw [hargs]
    have hk1 : ¬(expected.getD "" = "get_weather" ∧
        ¬(hasKey kvs "city" = true)) := by
      rintro ⟨he, hn⟩; exact hn (hkey1 he)
    have hk2 : ¬(expected.getD "" = "calculate" ∧
        ¬(hasKey kvs "expression" = true)) := by
      rintro ⟨he, hn⟩; exact hn (hkey2 he)
    dsimp only
    rw [if_neg hk1, if_neg hk2]
  rw [hev, hbody, hname]
  exact ⟨rfl, rfl, rfl, rfl, rfl⟩

/-- First tool call of the C6 witness: get_weather with the Tokyo
arguments object. -/
def c6ToolCall : ToolCall :=
  { id := some "call_0", type := some "function",
    function := some { name := some "get_weather", arguments := some "\x7b\"city\":\"Tokyo\"\x7d" } }

/-- Second, never-inspected tool call of the C6 witness. -/
def c6Extra : ToolCall :=
  { id := some "call_1", type := some "function",
    function := some { name := some "calculate", arguments := some "not json at all" } }

/-- Message of the C6 witness: two tool calls, the first matching. -/
def c6Message : Message :=
  { content := some (some ""), tool_calls := some (some [c6ToolCall, c6Extra]) }

/-- Choice of the C6 witness. -/
def c6Choice : Choice :=
  { message := some c6Message, finish_reason := some (some "tool_calls") }

/-- Witness for C6 at the Tokyo scenario, with a second tool call
present to exercise the first-call-only rule. -/
theorem C6_first_call_pass_witness :
    (evaluate_response [c6Choice] (some "get_weather")).1 = true ∧
    (evaluate_response [c6Choice] (some "get_weather")).2.tool_name =
      some "get_weather" ∧
    (evaluate_response [c6Choice] (some "get_weather")).2.arguments =
      some [("city", JValue.str "Tokyo")] ∧
    (evaluate_response [c6Choice] (some "get_weather")).2.num_tool_calls =
      some 2 := by
  have h := C6_first_call_pass c6Choice [] (some "get_weather") c6ToolCall
    [c6Extra] [("city", JValue.str "Tokyo")] rfl rfl rfl (by rfl)
    (fun _ => rfl) (fun hh => absurd hh (by decide))
  exact ⟨h.1, h.2.1, h.2.2.1, h.2.2.2.2⟩

/-- C7 amended: for every response whose first tool call matches the
expected name, if the arguments string fails to parse as JSON,
evaluate_response fails capturing the parse error and the raw
argument text truncated to 500 characters; if it parses to a
non-object value, evaluate_response fails capturing the offending
Python type name and the raw argument text in full (untruncated). -/
theorem C7_bad_arguments_amended (c : Choice) (rest : List Choice)
    (expected : Option String) (tc : ToolCall) (tcrest : List ToolCall)
    (hexp : truthyS expected = true)
    (htc : (((c.message.getD {}).tool_calls).join).getD [] = tc :: tcrest)
    (hname : ((tc.function.getD {}).name).getD "" = expected.getD "") :
    (match json_loads (((tc.function.getD {}).arguments).getD "") with
     | .error e =>
       (evaluate_response (c :: rest) expected).1 = false ∧
       (evaluate_response (c :: rest) expected).2.error =
         some ("Invalid JSON arguments: " ++ e) ∧
       (evaluate_response (c :: rest) expected).2.arguments_raw =
         some (pySlice (((tc.function.getD {}).arguments).getD "") 500)
     | .ok v =>
       pyIsDict v = false →
       (evaluate_response (c :: rest) expected).1 = false ∧
       (evaluate_response (c :: rest) expected).2.error =
         some ("Arguments not a dict: " ++ pyTypeName v) ∧
       (evaluate_response (c :: rest) expected).2.arguments_raw =
         some (((tc.function.getD {}).arguments).getD "")) := by
  have hev : evaluate_response (c :: rest) expected =
      evalExpected (tc :: tcrest)
        ((((c.message.getD {}).content).join).getD "")
        (finishGet c.finish_reason) (expected.getD "") := by
    simp only [evaluate_response]
    rw [htc, hexp]
    simp
  cases hj : json_loads (((tc.function.getD {}).arguments).getD "") with
  | error e =>
    have hbody : evalExpected (tc :: tcrest)
        ((((c.message.getD {}).content).join).getD "")
        (finishGet c.finish_reason) (expected.getD "") =
        (false, { error := some ("Invalid JSON arguments: " ++ e),
                  arguments_raw :=
                    some (pySlice (((tc.function.getD {}).arguments).getD "") 500) }) := by
      simp only [evalExpected]
      rw [if_neg (by rw [hname]; exact fun h => h rfl)]
      rw [hj]
    rw [hev, hbody]
    exact ⟨rfl, rfl, rfl⟩
  | ok v =>
    intro hd
    have hbody : evalExpected (tc :: tcrest)
        ((((c.message.getD {}).content).join).getD "")
        (finishGet c.finish_reason) (expected.getD "") =
        (false, { error := some ("Arguments not a dict: " ++ pyTypeName v),
                  arguments_raw :=
                    some (((tc.function.getD {}).arguments).getD "") }) := by
      simp only [evalExpected]
      rw [if_neg (by rw [hname]; exact fun h => h rfl)]
      rw [hj]
      cases v with
      | obj kvs => simp [pyIsDict] at hd
      | null => rfl
      | bool b => rfl
      | num a b => rfl
      | str s => rfl
      | arr l => rfl
    rw [hev, hbody]
    exact ⟨rfl, rfl, rfl⟩

/-- Arguments text of the C7 counterexample: a 512-character JSON
string literal, which parses to a non-object value and exceeds the
500-character truncation cap of the non-JSON branch. -/
def c7LongArgs : String :=
  "\"" ++ String.mk (List.replicate 510 'a') ++ "\""

/-- Tool call of the C7 counterexample. -/
def c7LongToolCall : ToolCall :=
  { id := some "call_0", type := some "function",
    function := some { name := some "calculate", arguments := some c7LongArgs } }

/-- Message of the C7 counterexample. -/
def c7LongMessage : Message :=
  { content := some (some ""), tool_calls := some (some [c7LongToolCall]) }

/-- Choice of the C7 counterexample. -/
def c7LongChoice : Choice :=
  { message := some c7LongMessage, finish_reason := some (some "stop") }

set_option maxRecDepth 100000 in
/-- Counterexample to C7 as stated: when the matching first tool
call carries arguments that parse to a JSON non-object longer than
the 500-character cap, the detail stores the raw text in full, not
truncated, so the claimed truncated capture fails in the non-object
case. -/
theorem C7_counterexample_untruncated :
    (evaluate_response [c7LongChoice] (some "calculate")).1 = false ∧
    (evaluate_response [c7LongChoice] (some "calculate")).2.arguments_raw =
      some c7LongArgs ∧
    ¬(some c7LongArgs = some (pySlice c7LongArgs 500)) := by
  refine ⟨rfl, rfl, ?_⟩
  intro h
  have h2 : c7LongArgs = pySlice c7LongArgs 500 := Option.some.inj h
  have h4 : ¬(c7LongArgs = pySlice c7LongArgs 500) := by decide
  exact h4 h2

/-- Arguments text of scenario C: an unquoted expression, invalid
JSON. -/
def c7BadArgs : String := "\x7b\"expression\": 17*23+5\x7d"

/-- Tool call of the C7 witness. -/
def c7BadToolCall : ToolCall :=
  { id := some "call_0", type := some "function",
    function := some { name := some "calculate", arguments := some c7BadArgs } }

/-- Message of the C7 witness. -/
def c7BadMessage : Message :=
  { content := some (some ""), tool_calls := some (some [c7BadToolCall]) }

/-- Choice of the C7 witness. -/
def c7BadChoice : Choice :=
  { message := some c7BadMessage, finish_reason := some (some "stop") }

/-- Witness for C7 amended at scenario C: the unquoted expression
fails to parse and the detail captures the parse error and the
truncated raw text. -/
theorem C7_bad_arguments_amended_witness :
    (evaluate_response [c7BadChoice] (some "calculate")).1 = false ∧
    (evaluate_response [c7BadChoice] (some "calculate")).2.error =
      some "Invalid JSON arguments: Expecting comma or closing brace" ∧
    (evaluate_response [c7BadChoice] (some "calculate")).2.arguments_raw =
      some (pySlice c7BadArgs 500) := by
  have h := C7_bad_arguments_amended c7BadChoice [] (some "calculate")
    c7BadToolCall [] rfl rfl rfl
  exact ⟨h.1, h.2.1, h.2.2⟩

/-- Choice with the given optional content and tool_calls stored in
its message, used to compare the null, missing and empty shapes. -/
def mkMsgChoice (cv : Option (Option String))
    (tcv : Option (Option (List ToolCall)))
    (fin : Option (Option String)) : Choice :=
  { message := some { content := cv, tool_calls := tcv }, finish_reason := fin }

/-- C10: evaluate_response classifies a first choice whose message
stores tool_calls as null, or omits the key, identically to one with
an empty list, and treats null or missing content identically to the
empty string; under a falsy expectation the verdict is a pass, and
under a truthy expected tool it is the expected-but-none failure. -/
theorem C10_null_missing_empty_equivalent
    (tcv : Option (Option (List ToolCall))) (cv : Option (Option String))
    (fin : Option (Option String)) (rest : List Choice)
    (expected : Option String)
    (h1 : tcv = none ∨ tcv = some none ∨ tcv = some (some []))
    (h2 : cv = none ∨ cv = some none ∨ cv = some (some "")) :
    evaluate_response (mkMsgChoice cv tcv fin :: rest) expected =
      evaluate_response
        (mkMsgChoice (some (some "")) (some (some [])) fin :: rest)
        expected ∧
    (truthyS expected = false →
      (evaluate_response (mkMsgChoice cv tcv fin :: rest) expected).1 =
        true) ∧
    (truthyS expected = true →
      (evaluate_response (mkMsgChoice cv tcv fin :: rest) expected).1 =
        false ∧
      (evaluate_response (mkMsgChoice cv tcv fin :: rest) expected).2.error =
        some "Expected tool_calls but got none") := by
  rcases h1 with h1 | h1 | h1 <;> rcases h2 with h2 | h2 | h2 <;>
    subst h1 <;> subst h2 <;>
    refine ⟨rfl, ?_, ?_⟩ <;> intro hf <;>
    simp [evaluate_response, mkMsgChoice, evalNoTool, evalExpected, hf]

/-- Witness for C10 at a concrete message with a null tool_calls key
and a missing content key under each kind of expectation. -/
theorem C10_null_missing_empty_equivalent_witness :
    (evaluate_response [mkMsgChoice none (some none) (some (some "stop"))]
        (some "calculate")).1 = false ∧
    (evaluate_response [mkMsgChoice none (some none) (some (some "stop"))]
        (some "calculate")).2.error =
      some "Expected tool_calls but got none" ∧
    evaluate_response [mkMsgChoice none (some none) (some (some "stop"))]
        (some "calculate") =
      evaluate_response
        [mkMsgChoice (some (some "")) (some (some []))
          (some (some "stop"))] (some "calculate") ∧
    (evaluate_response [mkMsgChoice none (some none) (some (some "stop"))]
        none).1 = true := by
  have h := C10_null_missing_empty_equivalent (some none) none
    (some (some "stop")) [] (some "calculate")
    (Or.inr (Or.inl rfl)) (Or.inl rfl)
  have h2 := C10_null_missing_empty_equivalent (some none) none
    (some (some "stop")) [] none
    (Or.inr (Or.inl rfl)) (Or.inl rfl)
  exact ⟨(h.2.2 rfl).1, (h.2.2 rfl).2, h.1, h2.2.1 rfl⟩

-- ── Claims about wait_for_server ──────────────────────────────────

theorem wait_for_server_skip_indecisive (deadline : Nat)
    (pre : List PollObs) (hpre : ∀ p ∈ pre, decisiveObs deadline p = false) :
    ∀ rest : List PollObs,
    wait_for_server deadline (pre ++ rest) = wait_for_server deadline rest := by
  induction pre with
  | nil => intro rest; rfl
  | cons p pre ih =>
    intro rest
    have hp : decisiveObs deadline p = false := hpre p (by simp)
    unfold decisiveObs at hp
    simp only [Bool.or_eq_false_iff, decide_eq_false_iff_not] at hp
    simp only [List.cons_append, wait_for_server,
      if_neg hp.1.1, hp.1.2, hp.2, Bool.false_eq_true, if_false]
    exact ih (fun q hq => hpre q (by simp [hq])) rest

/-- C8: wait_for_server, modelled over its loop-observation trace,
returns true at the first observation whose readiness probe
succeeds, returns false at the first observation that sees the
monitored process exited - even if the probe of that same attempt
would have succeeded, so no further polling happens - and returns
false once the deadline is reached; the verdict is decided by the
first decisive observation, independent of everything after it, and
while no observation is decisive the loop keeps polling. The Lean
model is a total function, matching the must-not-throw contract; the
log-tail dumps of the failure paths are side effects outside the
return value. -/
theorem C8_wait_for_server_first_decisive (deadline : Nat)
    (pre : List PollObs) (o : PollObs)
    (hpre : ∀ p ∈ pre, decisiveObs deadline p = false)
    (hdec : decisiveObs deadline o = true) :
    (∀ post : List PollObs,
      wait_for_server deadline (pre ++ o :: post) =
        some (obsVerdict deadline o)) ∧
    wait_for_server deadline pre = none ∧
    (deadline ≤ o.now → obsVerdict deadline o = false) ∧
    (¬(deadline ≤ o.now) → o.procExited = true →
      obsVerdict deadline o = false) ∧
    (¬(deadline ≤ o.now) → o.procExited = false →
      obsVerdict deadline o = true ∧ o.probeOk = true) := by
  refine ⟨?_, ?_, ?_, ?_, ?_⟩
  · intro post
    rw [wait_for_server_skip_indecisive deadline pre hpre]
    unfold wait_for_server obsVerdict
    by_cases h1 : deadline ≤ o.now
    · simp [h1]
    · cases h2 : o.procExited with
      | true => simp [h1, h2]
      | false =>
        have h3 : o.probeOk = true := by
          unfold decisiveObs at hdec
          simp only [Bool.or_eq_true, decide_eq_true_eq] at hdec
          rcases hdec with (h | h) | h
          · exact absurd h h1
          · rw [h2] at h; cases h
          · exact h
        simp [h1, h2, h3]
  · have := wait_for_server_skip_indecisive deadline pre hpre []
    simpa using this
  · intro h1
    unfold obsVerdict
    simp [h1]
  · intro h1 h2
    unfold obsVerdict
    simp [h1, h2]
  · intro h1 h2
    have h3 : o.probeOk = true := by
      unfold decisiveObs at hdec
      simp only [Bool.or_eq_true, decide_eq_true_eq] at hdec
      rcases hdec with (h | h) | h
      · exact absurd h h1
      · rw [h2] at h; cases h
      · exact h
    unfold obsVerdict
    simp [h1, h2, h3]

/-- Witness for C8 at a concrete trace: one indecisive attempt, then
a successful probe before the deadline. -/
theorem C8_wait_for_server_first_decisive_witness :
    wait_for_server 180
      [{ now := 0, procExited := false, probeOk := false },
       { now := 5, procExited := false, probeOk := true },
       { now := 200, procExited := false, probeOk := false }] = some true := by
  have h := C8_wait_for_server_first_decisive 180
    [{ now := 0, procExited := false, probeOk := false }]
    { now := 5, procExited := false, probeOk := true }
    (by intro p hp; simp at hp; rw [hp]; rfl) rfl
  have h2 := h.1 [{ now := 200, procExited := false, probeOk := false }]
  simpa using h2

-- ── Claims about the orchestration ────────────────────────────────

/-- Skip record appended for an unknown parser name. -/
def skipUnknownRec (p : String) : TestResultRec :=
  { parser := p, model := none, test := "skipped", passed := false }

/-- Skip record appended when a model directory is absent. -/
def skipDirRec (p mid : String) : TestResultRec :=
  { parser := p, model := some mid, test := "skipped", passed := false }

/-- Synthetic server-start record of one configuration. -/
def serverStartRec (p mid : String) (ok : Bool) : TestResultRec :=
  { parser := p, model := some mid, test := "server_start", passed := ok }

/-- Run environment in which every directory exists, every server
starts and every test case passes. -/
def envAllTrue : RunEnv :=
  { dirExists := fun _ => true, serverStarts := fun _ => true,
    outcome := fun _ _ => true }

/-- Counterexample to C4 as stated: with the default flags, the
parser llama3_json is size-excluded (its model id matches the 70B
tag) and the parser loop of main appends no record at all for it -
neither a skipped record nor anything else - while the claim
demands exactly one skipped result for a size-excluded
configuration. -/
theorem C4_counterexample_size_excluded_silent :
    isLargeModel "mlx-community/Llama-3.3-70B-Instruct-4bit-DWQ" = true ∧
    lookupParserModel "llama3_json" =
      some ("mlx-community/Llama-3.3-70B-Instruct-4bit-DWQ",
        "Llama 3.3 70B") ∧
    parserSectionResults "cache" envAllTrue ["llama3_json"] false = [] := by
  refine ⟨by decide, by decide, by decide⟩

theorem regression_run_branch (cache : String) (env : RunEnv) (mid : String) :
    ((if env.dirExists (modelDir cache mid) then
        run_regression_tests ("auto:" ++ modelShort mid) mid
          (env.serverStarts ("auto:" ++ modelShort mid))
          (env.outcome ("auto:" ++ modelShort mid))
      else [skipDirRec ("auto:" ++ modelShort mid) mid]).filter
        (fun r => r.test == "skipped")) =
      (if env.dirExists (modelDir cache mid) then []
       else [skipDirRec ("auto:" ++ modelShort mid) mid]) ∧
    ((if env.dirExists (modelDir cache mid) then
        run_regression_tests ("auto:" ++ modelShort mid) mid
          (env.serverStarts ("auto:" ++ modelShort mid))
          (env.outcome ("auto:" ++ modelShort mid))
      else [skipDirRec ("auto:" ++ modelShort mid) mid]).filter
        (fun r => r.test == "server_start")) =
      (if env.dirExists (modelDir cache mid) then
        [serverStartRec ("auto:" ++ modelShort mid) mid
          (env.serverStarts ("auto:" ++ modelShort mid))]
       else []) ∧
    countCases
      (if env.dirExists (modelDir cache mid) then
        run_regression_tests ("auto:" ++ modelShort mid) mid
          (env.serverStarts ("auto:" ++ modelShort mid))
          (env.outcome ("auto:" ++ modelShort mid))
      else [skipDirRec ("auto:" ++ modelShort mid) mid]) =
      (if env.dirExists (modelDir cache mid) then
        (if env.serverStarts ("auto:" ++ modelShort mid) then
          REGRESSION_CASES.length
         else 0)
       else 0) := by
  by_cases hd : env.dirExists (modelDir cache mid)
  · by_cases hs : env.serverStarts ("auto:" ++ modelShort mid)
    · simp [hd, hs, run_regression_tests, serverStartRec, countCases,
        countTest, REGRESSION_CASES, skipDirRec]
    · have hs2 : env.serverStarts ("auto:" ++ modelShort mid) = false := by
        revert hs
        cases env.serverStarts ("auto:" ++ modelShort mid) <;> simp
      simp [hd, hs2, run_regression_tests, serverStartRec, countCases,
        countTest, REGRESSION_CASES, skipDirRec]
  · have hd2 : env.dirExists (modelDir cache mid) = false := by
      revert hd; cases env.dirExists (modelDir cache mid) <;> simp
    simp [hd2, skipDirRec, countCases]

/-- C4 amended: every configuration the parser loop actually runs
appends exactly one server-start record, whose passed flag tracks
the health probe, and appends per-test-case records exactly when
that probe passed (one per test case); an unknown parser or an
absent model directory appends exactly one skipped record and
nothing else. In the regression loop the same holds, and a
size-excluded regression entry appends exactly one skipped record;
but in the parser loop a size-excluded parser is dropped from the
selection before enumeration and appends no record at all. -/
theorem C4_orchestration_result_invariants :
    (∀ (cache : String) (env : RunEnv) (p : String),
      ((parserConfigResults cache env p).filter
          (fun r => r.test == "skipped")) =
        (match lookupParserModel p with
         | none => [skipUnknownRec p]
         | some (mid, _) =>
           if env.dirExists (modelDir cache mid) then []
           else [skipDirRec p mid]) ∧
      ((parserConfigResults cache env p).filter
          (fun r => r.test == "server_start")) =
        (match lookupParserModel p with
         | none => []
         | some (mid, _) =>
           if env.dirExists (modelDir cache mid) then
             [serverStartRec p mid (env.serverStarts p)]
           else []) ∧
      countCases (parserConfigResults cache env p) =
        (match lookupParserModel p with
         | none => 0
         | some (mid, _) =>
           if env.dirExists (modelDir cache mid) then
             (if env.serverStarts p then TEST_CASES.length else 0)
           else 0)) ∧
    (∀ (cache : String) (env : RunEnv) (include_large : Bool)
        (entry : String × String × Bool),
      ((regressionConfigResults cache env include_large entry).filter
          (fun r => r.test == "skipped")) =
        (if entry.2.2 ∧ ¬(include_large = true) then
          [skipUnknownRec ("auto:" ++ modelShort entry.1)]
         else if env.dirExists (modelDir cache entry.1) then []
         else [skipDirRec ("auto:" ++ modelShort entry.1) entry.1]) ∧
      ((regressionConfigResults cache env include_large entry).filter
          (fun r => r.test == "server_start")) =
        (if entry.2.2 ∧ ¬(include_large = true) then []
         else if env.dirExists (modelDir cache entry.1) then
           [serverStartRec ("auto:" ++ modelShort entry.1) entry.1
             (env.serverStarts ("auto:" ++ modelShort entry.1))]
         else []) ∧
      countCases (regressionConfigResults cache env include_large entry) =
        (if entry.2.2 ∧ ¬(include_large = true) then 0
         else if env.dirExists (modelDir cache entry.1) then
           (if env.serverStarts ("auto:" ++ modelShort entry.1) then
             REGRESSION_CASES.length
            else 0)
         else 0)) ∧
    (∀ (cache : String) (env : RunEnv) (p : String),
      parserSectionResults cache env [p] false =
        (match lookupParserModel p with
         | none => parserConfigResults cache env p
         | some (mid, _) =>
           if isLargeModel mid then [] else parserConfigResults cache env p)) := by
  refine ⟨?_, ?_, ?_⟩
  · intro cache env p
    cases hlp : lookupParserModel p with
    | none =>
      simp [parserConfigResults, hlp, skipUnknownRec, countCases]
    | some pr =>
      obtain ⟨mid, reason⟩ := pr
      by_cases hd : env.dirExists (modelDir cache mid)
      · by_cases hs : env.serverStarts p
        · simp [parserConfigResults, hlp, hd, run_parser_tests, hs,
            serverStartRec, countCases, countTest, TEST_CASES]
        · have hs2 : env.serverStarts p = false := by
            revert hs; cases env.serverStarts p <;> simp
          simp [parserConfigResults, hlp, hd, run_parser_tests, hs2,
            serverStartRec, countCases, countTest, TEST_CASES]
      · have hd2 : env.dirExists (modelDir cache mid) = false := by
          revert hd; cases env.dirExists (modelDir cache mid) <;> simp
        simp [parserConfigResults, hlp, hd2, skipDirRec, countCases]
  · intro cache env inc entry
    obtain ⟨mid, desc, lg⟩ := entry
    cases lg with
    | true =>
      cases inc with
      | false => simp [regressionConfigResults, skipUnknownRec, countCases]
      | true => exact regression_run_branch cache env mid
    | false =>
      cases inc with
      | false => exact regression_run_branch cache env mid
      | true => exact regression_run_branch cache env mid
  · intro cache env p
    cases hlp : lookupParserModel p with
    | none => simp [parserSectionResults, hlp]
    | some pr =>
      obtain ⟨mid, reason⟩ := pr
      by_cases hl : isLargeModel mid
      · simp [parserSectionResults, hlp, hl]
      · have hl2 : isLargeModel mid = false := by
          revert hl; cases isLargeModel mid <;> simp
        simp [parserSectionResults, hlp, hl2]

end ToolCallHarness
